import Mathlib

/-
Verification development for the halldyll-agent conversational memory engine.
Rust text values are embedded as lists of characters; machine integers are
embedded as Nat / Int with explicit wrap-around where overflow can matter.
-/

namespace Halldyll

/-- Embedded Rust `String` / `&str`: a list of Unicode scalar values. -/
abbrev Text := List Char

/-- UTF-8 byte length of one scalar value (Rust `char::len_utf8`). -/
def charUtf8Len (c : Char) : Nat :=
  if c.toNat < 0x80 then 1
  else if c.toNat < 0x800 then 2
  else if c.toNat < 0x10000 then 3
  else 4

/-- UTF-8 encoding of one scalar value, as byte values. -/
def charUtf8 (c : Char) : List Nat :=
  let n := c.toNat
  if n < 0x80 then [n]
  else if n < 0x800 then
    [0xC0 ||| (n >>> 6), 0x80 ||| (n &&& 0x3F)]
  else if n < 0x10000 then
    [0xE0 ||| (n >>> 12), 0x80 ||| ((n >>> 6) &&& 0x3F), 0x80 ||| (n &&& 0x3F)]
  else
    [0xF0 ||| (n >>> 18), 0x80 ||| ((n >>> 12) &&& 0x3F),
     0x80 ||| ((n >>> 6) &&& 0x3F), 0x80 ||| (n &&& 0x3F)]

/-- UTF-8 encoding of a text (Rust `str::as_bytes`). -/
def utf8Bytes (t : Text) : List Nat :=
  (t.map charUtf8).flatten

/-- Byte length of a text (Rust `str::len`). -/
def byteLen (t : Text) : Nat :=
  (t.map charUtf8Len).sum

/-- Rust `char::is_whitespace`: the Unicode White_Space code points. -/
def isRustWhitespace (c : Char) : Bool :=
  let n := c.toNat
  (0x09 ≤ n && n ≤ 0x0D) || n = 0x20 || n = 0x85 || n = 0xA0 || n = 0x1680 ||
    (0x2000 ≤ n && n ≤ 0x200A) || n = 0x2028 || n = 0x2029 || n = 0x202F ||
    n = 0x205F || n = 0x3000

/-- Rust `char::to_lowercase`, restricted to the ASCII fragment of the Unicode
case mapping (the full Unicode tables are external library data; every claim
settled here is insensitive to the non-ASCII part of the mapping). -/
def charLowerChars (c : Char) : List Char :=
  if 65 ≤ c.toNat ∧ c.toNat ≤ 90 then [Char.ofNat (c.toNat + 32)] else [c]

/-- Rust `str::trim_end`: drop trailing whitespace. -/
def trimEnd (t : Text) : Text :=
  (t.reverse.dropWhile isRustWhitespace).reverse

/-- Rust `str::trim`: drop leading and trailing whitespace. -/
def trimText (t : Text) : Text :=
  trimEnd (t.dropWhile isRustWhitespace)

lemma length_trimEnd_le (t : Text) : (trimEnd t).length ≤ t.length := by
  have h : (t.reverse.dropWhile isRustWhitespace).Sublist t.reverse :=
    List.dropWhile_sublist _
  have h' := h.length_le
  simpa [trimEnd] using h'

/-- Loop body of `normalize_text`: fold whitespace runs into one ASCII space,
lowercase everything else; `prevSpace` tracks whether the previous input
character was whitespace. -/
def normCore : Text → Bool → Text
  | [], _ => []
  | c :: rest, prevSpace =>
    if isRustWhitespace c then
      if prevSpace then normCore rest true
      else ' ' :: normCore rest true
    else
      charLowerChars c ++ normCore rest false

/-- `normalize_text` from `memory/ingest/dedupe.rs`: trim, collapse whitespace
runs to a single space, lowercase. -/
def normalizeText (t : Text) : Text :=
  normCore (trimText t) false

/-- 2^64, the modulus for Rust `u64` arithmetic. -/
def u64Mod : Nat := 18446744073709551616

/-- Wrap to `u64` range. -/
def wrap64 (n : Nat) : Nat := n % u64Mod

/-- `u64` left rotation. -/
def rotl64 (x b : Nat) : Nat :=
  (wrap64 (x <<< b)) ||| (x >>> (64 - b))

/-- State of the SipHash permutation. -/
structure SipState where
  v0 : Nat
  v1 : Nat
  v2 : Nat
  v3 : Nat

/-- One SipHash round (the SIPROUND permutation on four `u64` lanes). -/
def sipRound (s : SipState) : SipState :=
  let v0 := wrap64 (s.v0 + s.v1)
  let v1 := rotl64 s.v1 13
  let v1 := v1 ^^^ v0
  let v0 := rotl64 v0 32
  let v2 := wrap64 (s.v2 + s.v3)
  let v3 := rotl64 s.v3 16
  let v3 := v3 ^^^ v2
  let v0 := wrap64 (v0 + v3)
  let v3 := rotl64 v3 21
  let v3 := v3 ^^^ v0
  let v2 := wrap64 (v2 + v1)
  let v1 := rotl64 v1 17
  let v1 := v1 ^^^ v2
  let v2 := rotl64 v2 32
  ⟨v0, v1, v2, v3⟩

/-- Little-endian word value of up to eight bytes. -/
def leWord : List Nat → Nat
  | [] => 0
  | b :: rest => b + 256 * leWord rest

/-- Absorb one message word with c = 1 compression round (SipHash-1-3). -/
def sipCompress (s : SipState) (m : Nat) : SipState :=
  let s := { s with v3 := s.v3 ^^^ m }
  let s := sipRound s
  { s with v0 := s.v0 ^^^ m }

/-- Absorb the message bytes in 8-byte little-endian words; the final word
carries the remaining bytes plus the total length modulo 256 in its top byte. -/
def sipBlocks (len : Nat) (s : SipState) (bs : List Nat) : SipState :=
  if h : 8 ≤ bs.length then
    sipBlocks len (sipCompress s (leWord (bs.take 8))) (bs.drop 8)
  else
    sipCompress s (leWord bs + (len % 256) * 72057594037927936)
termination_by bs.length
decreasing_by
  simp only [List.length_drop]
  omega

/-- SipHash-1-3 with key (0, 0) over a byte stream: the algorithm behind Rust's
`std::collections::hash_map::DefaultHasher`. -/
def sipHash13 (bs : List Nat) : Nat :=
  let s : SipState := ⟨0x736f6d6570736575, 0x646f72616e646f6d,
                       0x6c7967656e657261, 0x7465646279746573⟩
  let s := sipBlocks bs.length s bs
  let s := { s with v2 := s.v2 ^^^ 0xff }
  let s := sipRound (sipRound (sipRound s))
  wrap64 (s.v0 ^^^ s.v1 ^^^ s.v2 ^^^ s.v3)

/-- Rust's `Hash for str` feeds the UTF-8 bytes followed by a 0xFF terminator
byte into the hasher; `DefaultHasher::finish` yields the 64-bit value. -/
def strHashValue (t : Text) : Nat :=
  sipHash13 (utf8Bytes t ++ [0xff])

/-- One lowercase hexadecimal digit. -/
def hexDigit (n : Nat) : Char :=
  if n < 10 then Char.ofNat (48 + n) else Char.ofNat (87 + n)

/-- Rust `format!("{value:016x}")` for a `u64` value: sixteen lowercase
hexadecimal digits, most significant first. -/
def toHex16 (n : Nat) : Text :=
  (List.range 16).map fun i => hexDigit ((n >>> (4 * (15 - i))) % 16)

/-- `compute_hash` from `memory/ingest/dedupe.rs`: DefaultHasher over the
normalized content, rendered as 16 lowercase hex digits. -/
def computeHash (normalized : Text) : Text :=
  toHex16 (strHashValue normalized)

/-- `hash_content` from `memory/ingest/dedupe.rs`. -/
def hashContent (t : Text) : Text :=
  computeHash (normalizeText t)

/-- `MemoryKind` from `memory/core/kinds.rs`. -/
inductive MemoryKind where
  | Identity | Fact | Preference | Aversion | Constraint | Policy
  | Goal | Task | Plan | Decision | Procedure | Episode | Reflection
  | Summary | Feedback | ToolResult | CodeArtifact | DocumentArtifact
  | MediaArtifact | Other | Unknown
  deriving DecidableEq, Repr

/-- `MergeHint` from `memory/core/kinds.rs`. -/
inductive MergeHint where
  | Replace | Append | Accumulate
  deriving DecidableEq, Repr

/-- `MemoryKind::merge_hint`. -/
def MemoryKind.mergeHint : MemoryKind → MergeHint
  | .Identity | .Fact | .Preference | .Aversion | .Constraint | .Policy
  | .Procedure => .Replace
  | .Goal | .Task | .Plan | .Decision | .Reflection | .Summary | .Feedback
  | .CodeArtifact | .DocumentArtifact | .MediaArtifact => .Accumulate
  | .Episode | .ToolResult | .Other | .Unknown => .Append

/-- `MemoryKind::as_str`. -/
def MemoryKind.asStr : MemoryKind → Text
  | .Identity => "identity".data
  | .Fact => "fact".data
  | .Preference => "preference".data
  | .Aversion => "aversion".data
  | .Constraint => "constraint".data
  | .Policy => "policy".data
  | .Goal => "goal".data
  | .Task => "task".data
  | .Plan => "plan".data
  | .Decision => "decision".data
  | .Procedure => "procedure".data
  | .Episode => "episode".data
  | .Reflection => "reflection".data
  | .Summary => "summary".data
  | .Feedback => "feedback".data
  | .ToolResult => "tool_result".data
  | .CodeArtifact => "code_artifact".data
  | .DocumentArtifact => "document_artifact".data
  | .MediaArtifact => "media_artifact".data
  | .Other => "other".data
  | .Unknown => "unknown".data

/-- `MemorySource` from `memory/core/metadata.rs`. -/
inductive MemorySource where
  | User
  | Assistant
  | Tool
  | System
  | Stt (model : Text) (confidence : ℚ)
  | Tts (model : Text)
  | ImageGen (model : Text) (prompt : Text)
  | Vision (model : Text)
  deriving DecidableEq, Repr

/-- Timestamps are `chrono::DateTime<Utc>` at millisecond resolution, embedded
as integer milliseconds since the epoch. -/
abbrev Timestamp := Int

/-- `chrono` duration between two timestamps, in whole seconds truncated
toward zero (`Duration::num_seconds`). -/
def numSeconds (later earlier : Timestamp) : Int :=
  Int.tdiv (later - earlier) 1000

/-- `MemoryMetadata` from `memory/core/metadata.rs`. `salience` is a `u8`,
`ttl_seconds` a `u64`, `retrieval_count` a `u32`; all embedded as Nat. -/
structure MemoryMetadata where
  createdAt : Timestamp
  updatedAt : Timestamp
  salience : Nat
  tags : List Text
  ttlSeconds : Option Nat
  source : MemorySource
  retrievalCount : Nat
  lastRetrievedAt : Option Timestamp
  deriving DecidableEq, Repr

/-- `MemoryItem` from `memory/core/item.rs`; ids are opaque 128-bit tokens,
embedded as Nat, and `session_id` is carried in its printable form. -/
structure MemoryItem where
  id : Nat
  sessionId : Text
  kind : MemoryKind
  content : Text
  metadata : MemoryMetadata
  contentHash : Text
  deriving DecidableEq, Repr

/-- Scan for the sensitive-content regex
`(?i)(api[_-]?key|secret|password|token|bearer\s+[a-z0-9\-_]+|sk-[a-z0-9]{10,})`
over an already ASCII-lowercased character list. -/
def lowerAsciiChar (c : Char) : Char :=
  if 65 ≤ c.toNat ∧ c.toNat ≤ 90 then Char.ofNat (c.toNat + 32) else c

/-- Character class `[a-z0-9\-_]` (after lowering, `(?i)` folds A-Z in). -/
def isBearerWordChar (c : Char) : Bool :=
  (97 ≤ c.toNat && c.toNat ≤ 122) || (48 ≤ c.toNat && c.toNat ≤ 57) ||
    c = '-' || c = '_'

/-- Character class `[a-z0-9]`. -/
def isLowerAlnum (c : Char) : Bool :=
  (97 ≤ c.toNat && c.toNat ≤ 122) || (48 ≤ c.toNat && c.toNat ≤ 57)

/-- Does the lowered text start with the given literal? -/
def startsWithLit (t : Text) (lit : Text) : Bool :=
  lit.isPrefixOf t

/-- Does a match of one of the regex alternatives start at the head of `t`
(with `t` already lowercased)? -/
def sensitiveAt (t : Text) : Bool :=
  startsWithLit t "apikey".data || startsWithLit t "api_key".data ||
  startsWithLit t "api-key".data ||
  startsWithLit t "secret".data || startsWithLit t "password".data ||
  startsWithLit t "token".data ||
  (startsWithLit t "bearer".data &&
    (let rest := t.drop 6
     match rest with
     | [] => false
     | c :: _ =>
       isRustWhitespace c &&
         (match rest.dropWhile isRustWhitespace with
          | [] => false
          | d :: _ => isBearerWordChar d))) ||
  (startsWithLit t "sk-".data && 10 ≤ ((t.drop 3).takeWhile isLowerAlnum).length)

/-- `contains_sensitive` from `memory/core/item.rs`: the regex matches
somewhere in the text. -/
def containsSensitive (t : Text) : Bool :=
  (t.map lowerAsciiChar).tails.any sensitiveAt

/-- `MemoryItem::validate`: content non-empty after trim, character count at
most `max_chars`, salience at most 100, and no sensitive-looking content. -/
def MemoryItem.validateOk (item : MemoryItem) (maxChars : Nat) : Bool :=
  !(trimText item.content).isEmpty &&
  item.content.length ≤ maxChars &&
  item.metadata.salience ≤ 100 &&
  !containsSensitive item.content

/-- `ShortTermConfig` from `memory/core/config.rs`. -/
structure ShortTermConfig where
  window : Nat
  cacheCapacity : Nat
  deriving Repr

/-- `SummaryConfig` (`use_llm` flag kept; storage paths are not needed by any
verified claim). -/
structure SummaryConfig where
  intervalTurns : Nat
  maxChars : Nat
  useLlm : Bool
  deriving Repr

/-- `RetrievalConfig`; `min_similarity` is an `f64`, embedded as a rational. -/
structure RetrievalConfig where
  topK : Nat
  minSimilarity : ℚ
  deriving Repr

/-- `ScoringConfig`; the `f64` weights are embedded as rationals,
`recency_half_life_seconds` is a `u64`. -/
structure ScoringConfig where
  alphaRecency : ℚ
  betaSalience : ℚ
  recencyHalfLifeSeconds : Nat
  deriving Repr

/-- `PromptConfig`. -/
structure PromptConfig where
  maxChars : Nat
  maxMemoryChars : Nat
  deriving Repr

/-- `RetentionConfig`: the per-kind TTL override map, embedded as an
association list. -/
structure RetentionConfig where
  ttlSecondsByKind : List (MemoryKind × Nat)
  deriving Repr

/-- `MemoryConfig` restricted to the fields the verified claims touch
(model names, storage paths and base URLs are plain data that no claim
inspects; both base URLs are taken absent, making the URL-parse checks of
`validate` vacuous). -/
structure MemoryConfig where
  shortTerm : ShortTermConfig
  summary : SummaryConfig
  retrieval : RetrievalConfig
  scoring : ScoringConfig
  prompt : PromptConfig
  retention : RetentionConfig
  embeddingNdims : Nat
  deriving Repr

/-- `MemoryConfig::validate` from `memory/core/config.rs`. -/
def MemoryConfig.validateOk (c : MemoryConfig) : Bool :=
  c.shortTerm.window ≠ 0 &&
  c.shortTerm.cacheCapacity ≠ 0 &&
  c.summary.intervalTurns ≠ 0 &&
  c.retrieval.topK ≠ 0 &&
  c.prompt.maxChars ≠ 0 &&
  c.embeddingNdims ≠ 0 &&
  c.retention.ttlSecondsByKind.all (fun kv => kv.2 ≠ 0)

/-- `TranscriptRole` from `memory/ingest/transcript_event.rs`. -/
inductive TranscriptRole where
  | User | Assistant | Tool | System
  deriving DecidableEq, Repr

/-- `TranscriptEvent`; the optional tool payload is opaque to every claim and
kept as raw text. -/
structure TranscriptEvent where
  turnId : Nat
  sessionId : Text
  timestamp : Timestamp
  role : TranscriptRole
  content : Text
  toolName : Option Text
  toolPayload : Option Text
  deriving DecidableEq, Repr

/-- `apply_ttl` from `memory/ingest/pruning.rs`: items whose age in whole
seconds is non-negative and at least their TTL are expired. -/
def applyTtl (items : List MemoryItem) (now : Timestamp) :
    List MemoryItem × List Nat :=
  items.foldr
    (fun item (acc : List MemoryItem × List Nat) =>
      match item.metadata.ttlSeconds with
      | some ttl =>
        let age := numSeconds now item.metadata.createdAt
        if 0 ≤ age ∧ ttl ≤ age.toNat then (acc.1, item.id :: acc.2)
        else (item :: acc.1, acc.2)
      | none => (item :: acc.1, acc.2))
    ([], [])

/-- One step of `merge_duplicates`' HashMap loop: on a hash collision the new
item replaces the kept one only when BOTH its salience and its `updated_at`
are at least the kept one's. -/
def mergeDupStep (acc : List (Text × MemoryItem)) (item : MemoryItem) :
    List (Text × MemoryItem) :=
  match acc.lookup item.contentHash with
  | some existing =>
    if existing.metadata.salience ≤ item.metadata.salience ∧
        existing.metadata.updatedAt ≤ item.metadata.updatedAt then
      acc.map fun kv => if kv.1 = item.contentHash then (kv.1, item) else kv
    else acc
  | none => acc ++ [(item.contentHash, item)]

/-- `merge_duplicates` from `memory/ingest/pruning.rs`. The Rust HashMap's
`into_values` order is unspecified; the embedding determinizes it to first
insertion order, which leaves the set of kept items unchanged. -/
def mergeDuplicates (items : List MemoryItem) : List MemoryItem :=
  (items.foldl mergeDupStep []).map (·.2)

/-- `VectorSearchResult` from `memory/storage/vector_store.rs`. -/
structure VectorSearchResult where
  similarity : ℚ
  item : MemoryItem
  deriving DecidableEq, Repr

/-- `RankedMemory` from `memory/retrieval/ranking.rs`. -/
structure RankedMemory where
  score : ℚ
  similarity : ℚ
  recencyScore : ℚ
  salienceScore : ℚ
  item : MemoryItem
  deriving DecidableEq, Repr

/-- 2^32 - 1, the saturation bound used by `u32::try_from(..).unwrap_or(MAX)`. -/
def u32Max : Nat := 4294967295

/-- The scoring loop of `rank_results`: age and half-life are clamped into
`u32` range, the half-life floored at 1, and
`score = beta * salience/100 + (alpha * recency + similarity)` exactly as the
`mul_add` chain computes it. -/
def scoreResults (raw : List VectorSearchResult) (config : ScoringConfig)
    (now : Timestamp) : List RankedMemory :=
  let halfLife : ℚ := (max (min config.recencyHalfLifeSeconds u32Max) 1 : Nat)
  raw.map fun result =>
    let ageSeconds : ℚ :=
      (min (max (numSeconds now result.item.metadata.updatedAt) 0).toNat u32Max : Nat)
    let recencyScore := 1 / (1 + ageSeconds / halfLife)
    let salienceScore := (result.item.metadata.salience : ℚ) / 100
    let score := config.betaSalience * salienceScore +
      (config.alphaRecency * recencyScore + result.similarity)
    ⟨score, result.similarity, recencyScore, salienceScore, result.item⟩

/-- The comparator `|a, b| b.score.total_cmp(&a.score)`: `a` precedes `b` when
`a`'s score is at least `b`'s. -/
def scoreGe (a b : RankedMemory) : Prop := b.score ≤ a.score

instance : DecidableRel scoreGe := fun a b => inferInstanceAs (Decidable (b.score ≤ a.score))

instance : IsTotal RankedMemory scoreGe := ⟨fun a b => le_total b.score a.score⟩

instance : IsTrans RankedMemory scoreGe := ⟨fun _ _ _ h h' => le_trans h' h⟩

/-- `rank_results` from `memory/retrieval/ranking.rs`: score every raw result,
then stable-sort by score descending (Rust `sort_by` is stable; a stable sort
under a total preorder is extensionally unique, here realized by insertion
sort). -/
def rankResults (raw : List VectorSearchResult) (config : ScoringConfig)
    (now : Timestamp) : List RankedMemory :=
  (scoreResults raw config now).insertionSort scoreGe

/-- `build_query_text` from `memory/retrieval/search.rs`. -/
def buildQueryText (userMessage : Text) (turns : List TranscriptEvent) : Text :=
  (turns.map fun event =>
    (match event.role with
     | .User => "user".data
     | .Assistant => "assistant".data
     | .Tool => "tool".data
     | .System => "system".data) ++ ": ".data ++ event.content ++ ['\n']).flatten
  ++ "user: ".data ++ userMessage

/-- `PromptParts` from `memory/prompt/prompt_budget.rs`. -/
structure PromptParts where
  summary : Option Text
  memories : List MemoryItem
  turns : List TranscriptEvent
  userMessage : Text
  deriving DecidableEq, Repr

/-- Decimal rendering of a natural number (Rust `to_string`). -/
def natDecimal (n : Nat) : Text :=
  Nat.toDigits 10 n

/-- Decimal rendering of a signed integer (Rust `i64::to_string`). -/
def intDecimal (n : Int) : Text :=
  if n < 0 then '-' :: natDecimal n.natAbs else natDecimal n.toNat

/-- `render_memory_item` from `memory/prompt/prompt_builder.rs`. The source
samples `Utc::now()` for the age once per rendered item; the embedding threads
one clock sample `now` through the whole build. -/
def renderMemoryItem (now : Timestamp) (item : MemoryItem) : Text :=
  let ageSeconds := numSeconds now item.metadata.createdAt
  let tags :=
    if item.metadata.tags.isEmpty then "none".data
    else (item.metadata.tags.intersperse ",".data).flatten
  "* (".data ++ item.kind.asStr ++ ") ".data ++ item.content ++
    " [tags: ".data ++ tags ++ "] [salience: ".data ++
    natDecimal item.metadata.salience ++ "] [age_s: ".data ++
    intDecimal ageSeconds ++ "]\n".data

/-- `render_turn` from `memory/prompt/prompt_builder.rs`. -/
def renderTurn (event : TranscriptEvent) : Text :=
  "- ".data ++
    (match event.role with
     | .User => "User".data
     | .Assistant => "Assistant".data
     | .Tool => "Tool".data
     | .System => "System".data) ++
    ": ".data ++ event.content ++ ['\n']

/-- `build_prompt_block` from `memory/prompt/prompt_builder.rs`. -/
def buildPromptBlock (now : Timestamp) (parts : PromptParts) : Text :=
  "[MEMORY_SUMMARY]\n".data ++
    (match parts.summary with
     | some summary => summary ++ ['\n']
     | none => []) ++
  "[MEMORY_RELEVANT]\n".data ++
    (parts.memories.map (renderMemoryItem now)).flatten ++
  "[SHORT_TERM]\n".data ++
    (parts.turns.map renderTurn).flatten ++
  "[USER_MESSAGE]\n".data ++ parts.userMessage ++ ['\n']

/-- `estimate_len` from `memory/prompt/prompt_budget.rs` (all lengths are
byte lengths in the source). -/
def estimateLen (parts : PromptParts) : Nat :=
  17 +
  (match parts.summary with
   | some summary => byteLen summary + 1
   | none => 0) +
  18 +
  (parts.memories.map fun item =>
    byteLen item.content + 32 + (item.metadata.tags.map byteLen).sum).sum +
  13 +
  (parts.turns.map fun event => byteLen event.content + 12).sum +
  15 + byteLen parts.userMessage + 1

/-- `estimate_len_without_summary`. -/
def estimateLenWithoutSummary (parts : PromptParts) : Nat :=
  estimateLen { parts with summary := none }

/-- Termination measure for the summary-trimming branch of `enforce_budget`. -/
def summaryMeasure : Option Text → Nat
  | none => 0
  | some s => s.length + 1

/-- One iteration of the `enforce_budget` loop: `none` when the loop stops
(block fits, summary already short enough, or nothing left to trim),
`some parts'` when one trimming action was taken. -/
def budgetStep (now : Timestamp) (maxChars : Nat) (parts : PromptParts) :
    Option PromptParts :=
  if byteLen (buildPromptBlock now parts) ≤ maxChars then none
  else if parts.memories.isEmpty = false then
    some { parts with memories := parts.memories.dropLast }
  else if parts.turns.isEmpty = false then
    some { parts with turns := parts.turns.tail }
  else
    match parts.summary with
    | some s =>
      let remaining := maxChars - estimateLenWithoutSummary parts
      if remaining = 0 then some { parts with summary := none }
      else if remaining < s.length then
        some { parts with summary := some (trimEnd (s.take remaining)) }
      else none
    | none => none

/-- Termination measure for the `enforce_budget` loop. -/
def partsMeasure (parts : PromptParts) : Nat :=
  parts.memories.length + parts.turns.length + summaryMeasure parts.summary

lemma budgetStep_measure_lt (now : Timestamp) (maxChars : Nat)
    (parts parts' : PromptParts)
    (h : budgetStep now maxChars parts = some parts') :
    partsMeasure parts' < partsMeasure parts := by
  unfold budgetStep at h
  by_cases hfits : byteLen (buildPromptBlock now parts) ≤ maxChars
  · rw [if_pos hfits] at h
    exact absurd h (by simp)
  rw [if_neg hfits] at h
  by_cases hmem : parts.memories.isEmpty = false
  · rw [if_pos hmem] at h
    have hne : parts.memories ≠ [] := by simpa using hmem
    have hpos : 0 < parts.memories.length := List.length_pos.mpr hne
    injection h with h
    subst h
    simp only [partsMeasure, List.length_dropLast]
    omega
  rw [if_neg hmem] at h
  by_cases hturn : parts.turns.isEmpty = false
  · rw [if_pos hturn] at h
    have hne : parts.turns ≠ [] := by simpa using hturn
    have hpos : 0 < parts.turns.length := List.length_pos.mpr hne
    injection h with h
    subst h
    simp only [partsMeasure, List.length_tail]
    omega
  rw [if_neg hturn] at h
  cases hs : parts.summary with
  | some s =>
    rw [hs] at h
    dsimp only at h
    simp only [partsMeasure, hs, summaryMeasure]
    by_cases hrem : maxChars - estimateLenWithoutSummary parts = 0
    · rw [if_pos hrem] at h
      injection h with h
      subst h
      simp [summaryMeasure]
    rw [if_neg hrem] at h
    by_cases hlen : maxChars - estimateLenWithoutSummary parts < s.length
    · rw [if_pos hlen] at h
      injection h with h
      subst h
      have h1 : (trimEnd ((List.take (maxChars - estimateLenWithoutSummary parts)
          s))).length ≤
          (List.take (maxChars - estimateLenWithoutSummary parts) s).length :=
        length_trimEnd_le _
      have h2 : (List.take (maxChars - estimateLenWithoutSummary parts) s).length ≤
          maxChars - estimateLenWithoutSummary parts := by simp
      simp only [summaryMeasure]
      omega
    · rw [if_neg hlen] at h
      exact absurd h (by simp)
  | none =>
    rw [hs] at h
    exact absurd h (by simp)

/-- `enforce_budget` from `memory/prompt/prompt_budget.rs`: loop until the
rendered block fits, dropping the last memory first, then the first turn,
then truncating (or dropping) the summary. -/
def enforceBudget (now : Timestamp) (maxChars : Nat) (parts : PromptParts) :
    PromptParts :=
  if h : (budgetStep now maxChars parts).isSome then
    enforceBudget now maxChars ((budgetStep now maxChars parts).get h)
  else parts
termination_by partsMeasure parts
decreasing_by
exact budgetStep_measure_lt now maxChars parts _ (Option.some_get h).symm

lemma budgetStep_none (now : Timestamp) (maxChars : Nat) (parts : PromptParts)
    (h : budgetStep now maxChars parts = none) :
    byteLen (buildPromptBlock now parts) ≤ maxChars ∨
      (parts.memories = [] ∧ parts.turns = []) := by
  unfold budgetStep at h
  by_cases hfits : byteLen (buildPromptBlock now parts) ≤ maxChars
  · exact Or.inl hfits
  rw [if_neg hfits] at h
  by_cases hmem : parts.memories.isEmpty = false
  · rw [if_pos hmem] at h
    exact absurd h (by simp)
  rw [if_neg hmem] at h
  by_cases hturn : parts.turns.isEmpty = false
  · rw [if_pos hturn] at h
    exact absurd h (by simp)
  refine Or.inr ⟨by simpa using hmem, by simpa using hturn⟩

/-- The summary of the trimmed parts is the input summary, a prefix of it, or
dropped altogether. -/
def summaryTrimmed : Option Text → Option Text → Prop
  | none, _ => True
  | some s', some s => ∃ u, s = s' ++ u
  | some _, none => False

lemma summaryTrimmed_refl (a : Option Text) : summaryTrimmed a a := by
  cases a with
  | none => trivial
  | some s => exact ⟨[], (List.append_nil s).symm⟩

lemma summaryTrimmed_trans (a b c : Option Text) (h1 : summaryTrimmed a b)
    (h2 : summaryTrimmed b c) : summaryTrimmed a c := by
  cases a with
  | none => trivial
  | some s' =>
    cases b with
    | none => exact absurd h1 (by simp [summaryTrimmed])
    | some s =>
      cases c with
      | none => exact absurd h2 (by simp [summaryTrimmed])
      | some t =>
        obtain ⟨u, hu⟩ := h1
        obtain ⟨v, hv⟩ := h2
        exact ⟨u ++ v, by rw [hv, hu, List.append_assoc]⟩

lemma exists_trimEnd_append (t : Text) : ∃ u, t = trimEnd t ++ u := by
  refine ⟨(t.reverse.takeWhile isRustWhitespace).reverse, ?_⟩
  have hsplit :
      t.reverse.takeWhile isRustWhitespace ++ t.reverse.dropWhile isRustWhitespace =
        t.reverse :=
    List.takeWhile_append_dropWhile _ _
  calc t = t.reverse.reverse := (List.reverse_reverse t).symm
    _ = (t.reverse.takeWhile isRustWhitespace ++
          t.reverse.dropWhile isRustWhitespace).reverse := by rw [hsplit]
    _ = trimEnd t ++ (t.reverse.takeWhile isRustWhitespace).reverse := by
          rw [List.reverse_append]; rfl

lemma budgetStep_frame (now : Timestamp) (maxChars : Nat)
    (parts parts' : PromptParts)
    (h : budgetStep now maxChars parts = some parts') :
    parts'.userMessage = parts.userMessage ∧
      (∃ u, parts.memories = parts'.memories ++ u) ∧
      (∃ u, parts.turns = u ++ parts'.turns) ∧
      summaryTrimmed parts'.summary parts.summary := by
  unfold budgetStep at h
  by_cases hfits : byteLen (buildPromptBlock now parts) ≤ maxChars
  · rw [if_pos hfits] at h
    exact absurd h (by simp)
  rw [if_neg hfits] at h
  by_cases hmem : parts.memories.isEmpty = false
  · rw [if_pos hmem] at h
    have hne : parts.memories ≠ [] := by simpa using hmem
    injection h with h
    subst h
    refine ⟨rfl, ⟨[parts.memories.getLast hne], ?_⟩,
      ⟨[], (List.nil_append _).symm⟩, summaryTrimmed_refl _⟩
    exact (List.dropLast_append_getLast hne).symm
  rw [if_neg hmem] at h
  by_cases hturn : parts.turns.isEmpty = false
  · rw [if_pos hturn] at h
    have hne : parts.turns ≠ [] := by simpa using hturn
    injection h with h
    subst h
    refine ⟨rfl, ⟨[], (List.append_nil _).symm⟩, ⟨[parts.turns.head hne], ?_⟩,
      summaryTrimmed_refl _⟩
    exact (List.head_cons_tail parts.turns hne).symm
  rw [if_neg hturn] at h
  cases hs : parts.summary with
  | some s =>
    rw [hs] at h
    dsimp only at h
    by_cases hrem : maxChars - estimateLenWithoutSummary parts = 0
    · rw [if_pos hrem] at h
      injection h with h
      subst h
      exact ⟨rfl, ⟨[], (List.append_nil _).symm⟩, ⟨[], (List.nil_append _).symm⟩,
        trivial⟩
    rw [if_neg hrem] at h
    by_cases hlen : maxChars - estimateLenWithoutSummary parts < s.length
    · rw [if_pos hlen] at h
      injection h with h
      subst h
      refine ⟨rfl, ⟨[], (List.append_nil _).symm⟩, ⟨[], (List.nil_append _).symm⟩, ?_⟩
      obtain ⟨u, hu⟩ :=
        exists_trimEnd_append (s.take (maxChars - estimateLenWithoutSummary parts))
      refine ⟨u ++ s.drop (maxChars - estimateLenWithoutSummary parts), ?_⟩
      have hassoc :
          trimEnd (s.take (maxChars - estimateLenWithoutSummary parts)) ++
              (u ++ s.drop (maxChars - estimateLenWithoutSummary parts)) =
            (trimEnd (s.take (maxChars - estimateLenWithoutSummary parts)) ++ u) ++
              s.drop (maxChars - estimateLenWithoutSummary parts) :=
        (List.append_assoc _ _ _).symm
      rw [hassoc, ← hu, List.take_append_drop]
    · rw [if_neg hlen] at h
      exact absurd h (by simp)
  | none =>
    rw [hs] at h
    exact absurd h (by simp)

lemma enforceBudget_eq_some (now : Timestamp) (maxChars : Nat)
    (parts parts' : PromptParts)
    (h : budgetStep now maxChars parts = some parts') :
    enforceBudget now maxChars parts = enforceBudget now maxChars parts' := by
  rw [enforceBudget]
  have hs : (budgetStep now maxChars parts).isSome = true := by simp [h]
  rw [dif_pos hs]
  simp only [h, Option.get_some]

lemma enforceBudget_eq_none (now : Timestamp) (maxChars : Nat)
    (parts : PromptParts) (h : budgetStep now maxChars parts = none) :
    enforceBudget now maxChars parts = parts := by
  rw [enforceBudget]
  have hs : ¬(budgetStep now maxChars parts).isSome = true := by simp [h]
  rw [dif_neg hs]

lemma enforceBudget_fits_or_empty (now : Timestamp) (maxChars : Nat)
    (parts : PromptParts) :
    byteLen (buildPromptBlock now (enforceBudget now maxChars parts)) ≤ maxChars ∨
      ((enforceBudget now maxChars parts).memories = [] ∧
        (enforceBudget now maxChars parts).turns = []) := by
  generalize hgen : partsMeasure parts = n
  induction n using Nat.strong_induction_on generalizing parts with
  | _ n ih =>
    cases hstep : budgetStep now maxChars parts with
    | none =>
      rw [enforceBudget_eq_none now maxChars parts hstep]
      exact budgetStep_none now maxChars parts hstep
    | some p' =>
      rw [enforceBudget_eq_some now maxChars parts p' hstep]
      have hlt : partsMeasure p' < n := hgen ▸
        budgetStep_measure_lt now maxChars parts p' hstep
      exact ih (partsMeasure p') hlt p' rfl

lemma enforceBudget_frame (now : Timestamp) (maxChars : Nat)
    (parts : PromptParts) :
    (enforceBudget now maxChars parts).userMessage = parts.userMessage ∧
      (∃ u, parts.memories = (enforceBudget now maxChars parts).memories ++ u) ∧
      (∃ u, parts.turns = u ++ (enforceBudget now maxChars parts).turns) ∧
      summaryTrimmed (enforceBudget now maxChars parts).summary parts.summary := by
  generalize hgen : partsMeasure parts = n
  induction n using Nat.strong_induction_on generalizing parts with
  | _ n ih =>
    cases hstep : budgetStep now maxChars parts with
    | none =>
      rw [enforceBudget_eq_none now maxChars parts hstep]
      exact ⟨rfl, ⟨[], (List.append_nil _).symm⟩, ⟨[], (List.nil_append _).symm⟩,
        summaryTrimmed_refl _⟩
    | some p' =>
      rw [enforceBudget_eq_some now maxChars parts p' hstep]
      obtain ⟨hu, ⟨um, hm⟩, ⟨ut, htn⟩, hsum⟩ :=
        budgetStep_frame now maxChars parts p' hstep
      have hlt : partsMeasure p' < n := hgen ▸
        budgetStep_measure_lt now maxChars parts p' hstep
      obtain ⟨hu', ⟨um', hm'⟩, ⟨ut', htn'⟩, hsum'⟩ := ih (partsMeasure p') hlt p' rfl
      refine ⟨hu'.trans hu, ⟨um' ++ um, ?_⟩, ⟨ut ++ ut', ?_⟩, ?_⟩
      · rw [hm, hm', List.append_assoc]
      · rw [htn, htn', List.append_assoc]
      · exact summaryTrimmed_trans _ _ _ hsum' hsum

/-- Error type of the memory engine (`MemoryError`), collapsed to the shapes
the claims distinguish. -/
inductive MemoryError where
  | storage (msg : Text)
  | invalidInput (msg : Text)
  deriving DecidableEq, Repr

deriving instance DecidableEq for Except

/-- `SummaryRecord` from `memory/storage/summary_store.rs`. -/
structure SummaryRecord where
  sessionId : Text
  summary : Text
  updatedAt : Timestamp
  turnCount : Nat
  deriving DecidableEq, Repr

/-- `PreparedContext` from `memory/engine/core.rs`. -/
structure PreparedContext where
  summary : Option Text
  memories : List MemoryItem
  shortTerm : List TranscriptEvent
  userMessage : Text
  promptBlock : Text
  deriving DecidableEq, Repr

/-- The store and provider calls `prepare_context` suspends on, abstracted as
oracles: each call either yields a value or fails like the corresponding
`await?` site. -/
structure PrepareDeps where
  loadRecent : Text → Nat → Except MemoryError (List TranscriptEvent)
  query : Text → Text → Nat → ℚ → Except MemoryError (List VectorSearchResult)
  deleteByIds : List Nat → Except MemoryError Unit
  getSummary : Text → Except MemoryError (Option SummaryRecord)

/-- 2^64 - 1, the saturation bound of 64-bit `usize` arithmetic. -/
def usizeMax : Nat := 18446744073709551615

/-- `MemoryEngine::prepare_context` from `memory/engine/core.rs`. The source
samples `Utc::now()` separately for ranking, the TTL filter, and each rendered
age; the embedding threads a single clock sample `now` through all of them. -/
def prepareContext (config : MemoryConfig) (deps : PrepareDeps)
    (sessionId : Text) (userMessage : Text) (recentTurns : List TranscriptEvent)
    (now : Timestamp) : Except MemoryError PreparedContext :=
  match if recentTurns.isEmpty then
      deps.loadRecent sessionId (min (config.shortTerm.window * 2) usizeMax)
    else .ok recentTurns with
  | .error e => .error e
  | .ok shortTerm =>
    match deps.query sessionId (buildQueryText userMessage shortTerm)
        config.retrieval.topK config.retrieval.minSimilarity with
    | .error e => .error e
    | .ok raw =>
      let ranked := rankResults raw config.scoring now
      let memories := ranked.map (·.item)
      let kept := (applyTtl memories now).1
      let expired := (applyTtl memories now).2
      match if expired.isEmpty = false then deps.deleteByIds expired
            else .ok () with
      | .error e => .error e
      | .ok _ =>
        match deps.getSummary sessionId with
        | .error e => .error e
        | .ok record =>
          let summary := record.map (·.summary)
          let parts : PromptParts :=
            { summary := summary, memories := kept, turns := shortTerm,
              userMessage := userMessage }
          let parts := enforceBudget now config.prompt.maxChars parts
          let promptBlock := buildPromptBlock now parts
          .ok { summary := parts.summary, memories := parts.memories,
                shortTerm := parts.turns, userMessage := parts.userMessage,
                promptBlock := promptBlock }

/-- The engine's dedup LRU (`lru::LruCache<String, ()>`): capacity plus keys
in most-recently-used-first order. -/
structure DedupeCache where
  capacity : Nat
  entries : List Text
  deriving DecidableEq, Repr

/-- `LruCache::get`: reports presence and promotes the key to the front. -/
def DedupeCache.get (cache : DedupeCache) (key : Text) : Bool × DedupeCache :=
  if cache.entries.contains key then
    (true, { cache with entries := key :: cache.entries.filter (· ≠ key) })
  else (false, cache)

/-- `LruCache::put`: insert or refresh the key at the front, evicting the
least recently used entry beyond capacity. -/
def DedupeCache.put (cache : DedupeCache) (key : Text) : DedupeCache :=
  { cache with
    entries := (key :: cache.entries.filter (· ≠ key)).take cache.capacity }

/-- The dedup-cache key `format!("{session_id}:{content_hash}")`. -/
def mkDedupeKey (sessionId contentHash : Text) : Text :=
  sessionId ++ ':' :: contentHash

/-- `ttl_seconds_by_kind.get(&kind)` on the association-list embedding. -/
def lookupTtl (retention : RetentionConfig) (kind : MemoryKind) : Option Nat :=
  (retention.ttlSecondsByKind.lookup kind)

/-- The per-kind TTL default applied at the top of the filter loop. -/
def applyTtlDefault (config : MemoryConfig) (item : MemoryItem) : MemoryItem :=
  if item.metadata.ttlSeconds = none then
    match lookupTtl config.retention item.kind with
    | some ttl =>
      { item with metadata := { item.metadata with ttlSeconds := some ttl } }
    | none => item
  else item

/-- `MemoryEngine::filter_new_items` from `memory/engine/core.rs`: apply the
per-kind TTL default, validate, skip items whose `(session, hash)` key is in
the LRU, skip (and remember) items whose hash the vector store already holds;
`existsHash` is the `vector.exists_hash` oracle. -/
def filterNewItems (config : MemoryConfig)
    (existsHash : Text → Text → Except MemoryError Bool) (sessionId : Text) :
    List MemoryItem → DedupeCache →
    Except MemoryError (List MemoryItem × DedupeCache)
  | [], cache => .ok ([], cache)
  | item :: rest, cache =>
    let item := applyTtlDefault config item
    if item.validateOk config.prompt.maxMemoryChars = false then
      filterNewItems config existsHash sessionId rest cache
    else
      let key := mkDedupeKey sessionId item.contentHash
      let res := cache.get key
      if res.1 then
        filterNewItems config existsHash sessionId rest res.2
      else
        match existsHash sessionId item.contentHash with
        | .error e => .error e
        | .ok true =>
          filterNewItems config existsHash sessionId rest (res.2.put key)
        | .ok false =>
          match filterNewItems config existsHash sessionId rest res.2 with
          | .error e => .error e
          | .ok (fresh, cache') => .ok (item :: fresh, cache')

/-- The sequence of `vector.upsert` calls `persist_fresh_items` issues: one
per surviving item, stopping at the first embedding or upsert failure
(either aborts `record_turn`). -/
def upsertCalls (embed : Text → Except MemoryError Nat)
    (upsert : MemoryItem → Nat → Except MemoryError Unit) :
    List MemoryItem → List MemoryItem
  | [] => []
  | item :: rest =>
    match embed item.content with
    | .error _ => []
    | .ok e =>
      item ::
        (match upsert item e with
         | .error _ => []
         | .ok _ => upsertCalls embed upsert rest)

/-- `u32::saturating_add` on the Nat embedding of `u32` values. -/
def saturatingAddU32 (a b : Nat) : Nat :=
  min (a + b) u32Max

/-- `merge_metadata` from `memory/ingest/semantic_dedupe.rs`. -/
def mergeMetadata (existing new : MemoryMetadata) : MemoryMetadata :=
  let salience := max existing.salience new.salience
  let updatedAt := max existing.updatedAt new.updatedAt
  let createdAt := existing.createdAt
  let tags := new.tags.foldl
    (fun acc tag => if acc.contains tag then acc else acc ++ [tag])
    existing.tags
  let source := new.source
  let ttlSeconds :=
    match existing.ttlSeconds, new.ttlSeconds with
    | some a, some b => some (min a b)
    | some a, none => some a
    | none, some b => some b
    | none, none => none
  let retrievalCount := saturatingAddU32 existing.retrievalCount new.retrievalCount
  let lastRetrievedAt :=
    match existing.lastRetrievedAt, new.lastRetrievedAt with
    | some a, some b => some (max a b)
    | some a, none => some a
    | none, some b => some b
    | none, none => none
  { createdAt := createdAt, updatedAt := updatedAt, salience := salience,
    tags := tags, ttlSeconds := ttlSeconds, source := source,
    retrievalCount := retrievalCount, lastRetrievedAt := lastRetrievedAt }

/-- `merge_memories` from `memory/ingest/semantic_dedupe.rs`: content and kind
follow the existing kind's merge hint, metadata is merged field-wise, the hash
is recomputed from the merged content, and the existing id is kept. -/
def mergeMemories (existing new : MemoryItem) : MemoryItem :=
  let mergeHint := existing.kind.mergeHint
  let contentKind : Text × MemoryKind :=
    match mergeHint with
    | .Replace => (new.content, new.kind)
    | .Append => (existing.content, existing.kind)
    | .Accumulate =>
      if byteLen existing.content < byteLen new.content then
        (new.content, new.kind)
      else (existing.content, existing.kind)
  let mergedMetadata := mergeMetadata existing.metadata new.metadata
  let contentHash := hashContent contentKind.1
  { id := existing.id, sessionId := existing.sessionId,
    kind := contentKind.2, content := contentKind.1,
    metadata := mergedMetadata, contentHash := contentHash }

lemma prepareContext_ok_shape (config : MemoryConfig) (deps : PrepareDeps)
    (sessionId userMessage : Text) (recentTurns : List TranscriptEvent)
    (now : Timestamp) (ctx : PreparedContext)
    (h : prepareContext config deps sessionId userMessage recentTurns now =
      .ok ctx) :
    ∃ parts : PromptParts,
      ctx = { summary := (enforceBudget now config.prompt.maxChars parts).summary,
              memories := (enforceBudget now config.prompt.maxChars parts).memories,
              shortTerm := (enforceBudget now config.prompt.maxChars parts).turns,
              userMessage :=
                (enforceBudget now config.prompt.maxChars parts).userMessage,
              promptBlock :=
                buildPromptBlock now
                  (enforceBudget now config.prompt.maxChars parts) } := by
  unfold prepareContext at h
  cases h1 : (if recentTurns.isEmpty then
      deps.loadRecent sessionId (min (config.shortTerm.window * 2) usizeMax)
    else .ok recentTurns) with
  | error e => rw [h1] at h; exact Except.noConfusion h
  | ok shortTerm =>
  rw [h1] at h
  dsimp only at h
  cases h2 : deps.query sessionId (buildQueryText userMessage shortTerm)
      config.retrieval.topK config.retrieval.minSimilarity with
  | error e => rw [h2] at h; exact Except.noConfusion h
  | ok raw =>
  rw [h2] at h
  dsimp only at h
  cases h3 : (if ((applyTtl ((rankResults raw config.scoring now).map (·.item))
      now).2).isEmpty = false then
      deps.deleteByIds
        ((applyTtl ((rankResults raw config.scoring now).map (·.item)) now).2)
    else .ok ()) with
  | error e => rw [h3] at h; exact Except.noConfusion h
  | ok u =>
  rw [h3] at h
  dsimp only at h
  cases h4 : deps.getSummary sessionId with
  | error e => rw [h4] at h; exact Except.noConfusion h
  | ok record =>
  rw [h4] at h
  dsimp only at h
  refine ⟨{ summary := record.map (·.summary),
            memories := (applyTtl ((rankResults raw config.scoring now).map
              (·.item)) now).1,
            turns := shortTerm, userMessage := userMessage }, ?_⟩
  exact (Except.ok.inj h).symm

/-- The `Default` values of `MemoryConfig` from `memory/core/config.rs`. -/
def defaultConfig : MemoryConfig where
  shortTerm := { window := 6, cacheCapacity := 256 }
  summary := { intervalTurns := 8, maxChars := 1200, useLlm := false }
  retrieval := { topK := 6, minSimilarity := 1 / 5 }
  scoring := { alphaRecency := 3 / 20, betaSalience := 7 / 20,
               recencyHalfLifeSeconds := 604800 }
  prompt := { maxChars := 3600, maxMemoryChars := 1200 }
  retention := { ttlSecondsByKind := [] }
  embeddingNdims := 768

/-- C9: `enforce_budget` only removes or truncates: the returned memories are
a prefix of the input memories, the returned turns a suffix of the input
turns, the returned summary absent or a (trailing-whitespace-trimmed) prefix
of the input summary, and the user message is unchanged. -/
theorem C9_enforce_budget_frame (now : Timestamp) (maxChars : Nat)
    (parts : PromptParts) :
    (∃ u, parts.memories = (enforceBudget now maxChars parts).memories ++ u) ∧
      (∃ u, parts.turns = u ++ (enforceBudget now maxChars parts).turns) ∧
      ((enforceBudget now maxChars parts).summary = none ∨
        ∃ s s', parts.summary = some s ∧
          (enforceBudget now maxChars parts).summary = some s' ∧
          ∃ u, s = s' ++ u) ∧
      (enforceBudget now maxChars parts).userMessage = parts.userMessage := by
  obtain ⟨hu, hm, ht, hsum⟩ := enforceBudget_frame now maxChars parts
  refine ⟨hm, ht, ?_, hu⟩
  cases hres : (enforceBudget now maxChars parts).summary with
  | none => exact Or.inl rfl
  | some s' =>
    rw [hres] at hsum
    cases hps : parts.summary with
    | none => rw [hps] at hsum; exact absurd hsum (by simp [summaryTrimmed])
    | some s =>
      rw [hps] at hsum
      obtain ⟨u, hu'⟩ := hsum
      exact Or.inr ⟨s, s', rfl, rfl, u, hu'⟩

/-- C1 (amended): on every `prepare_context` success, the prompt block fits
the configured `prompt.max_chars` unless every memory and every short-term
turn has already been dropped (in which case only the headers, a summary
remnant, and the untrimmed user message can overflow). -/
theorem C1_budget_amended (config : MemoryConfig) (deps : PrepareDeps)
    (sessionId userMessage : Text) (recentTurns : List TranscriptEvent)
    (now : Timestamp) (ctx : PreparedContext)
    (h : prepareContext config deps sessionId userMessage recentTurns now =
      .ok ctx) :
    byteLen ctx.promptBlock ≤ config.prompt.maxChars ∨
      (ctx.memories = [] ∧ ctx.shortTerm = []) := by
  obtain ⟨parts, hctx⟩ :=
    prepareContext_ok_shape config deps sessionId userMessage recentTurns now
      ctx h
  subst hctx
  exact enforceBudget_fits_or_empty now config.prompt.maxChars parts

/-- Oracles for an empty store: every call succeeds with nothing in it. -/
def emptyDeps : PrepareDeps where
  loadRecent := fun _ _ => .ok []
  query := fun _ _ _ _ => .ok []
  deleteByIds := fun _ => .ok ()
  getSummary := fun _ => .ok none

/-- The prompt parts of a `prepare_context` call on an empty store with an
empty user message. -/
def emptyParts : PromptParts where
  summary := none
  memories := []
  turns := []
  userMessage := []

/-- The context prepared from an empty store and empty user message. -/
def emptyCtx : PreparedContext where
  summary := none
  memories := []
  shortTerm := []
  userMessage := []
  promptBlock := buildPromptBlock 0 emptyParts

theorem C1_budget_amended_witness :
    byteLen emptyCtx.promptBlock ≤ defaultConfig.prompt.maxChars ∨
      (emptyCtx.memories = [] ∧ emptyCtx.shortTerm = []) :=
  C1_budget_amended defaultConfig emptyDeps ("s".data) [] [] 0 emptyCtx (by
    have h0 : budgetStep 0 3600 emptyParts = none := by decide
    have hEB := enforceBudget_eq_none 0 3600 emptyParts h0
    show Except.ok
        { summary := (enforceBudget 0 3600 emptyParts).summary,
          memories := (enforceBudget 0 3600 emptyParts).memories,
          shortTerm := (enforceBudget 0 3600 emptyParts).turns,
          userMessage := (enforceBudget 0 3600 emptyParts).userMessage,
          promptBlock := buildPromptBlock 0 (enforceBudget 0 3600 emptyParts) } =
      .ok emptyCtx
    rw [hEB]
    rfl)

/-- The default configuration with `prompt.max_chars` set to 70 (accepted by
`MemoryConfig::validate`, which only requires it to be nonzero). -/
def overflowConfig : MemoryConfig :=
  { defaultConfig with prompt := { maxChars := 70, maxMemoryChars := 1200 } }

/-- Oracles with an empty store except for a ten-character stored summary. -/
def overflowDeps : PrepareDeps where
  loadRecent := fun _ _ => .ok []
  query := fun _ _ _ _ => .ok []
  deleteByIds := fun _ => .ok ()
  getSummary := fun _ =>
    .ok (some { sessionId := "s".data, summary := List.replicate 10 'a',
                updatedAt := 0, turnCount := 0 })

/-- Prompt parts entering `enforce_budget` in the overflow scenario. -/
def overflowParts0 : PromptParts where
  summary := some (List.replicate 10 'a')
  memories := []
  turns := []
  userMessage := []

/-- The same parts after one summary truncation to the 6-character budget
remainder; the loop then stops even though the rendered block is 71 > 70
bytes, because the reserved newline after the summary is not accounted for. -/
def overflowParts1 : PromptParts where
  summary := some (List.replicate 6 'a')
  memories := []
  turns := []
  userMessage := []

/-- C1: counterexample. With the valid configuration `prompt.max_chars = 70`,
an empty user message and a ten-character stored summary, `prepare_context`
succeeds with a 71-byte prompt block: the claimed bound
`|prompt_block| ≤ prompt.max_chars` is violated. -/
theorem C1_budget_counterexample :
    overflowConfig.validateOk = true ∧
    overflowConfig.prompt.maxChars = 70 ∧
    (prepareContext overflowConfig overflowDeps ("s".data) [] [] 0).map
        (fun ctx => byteLen ctx.promptBlock) = .ok 71 := by
  refine ⟨by decide, rfl, ?_⟩
  have h1 : budgetStep 0 70 overflowParts0 = some overflowParts1 := by decide
  have h2 : budgetStep 0 70 overflowParts1 = none := by decide
  have hEB : enforceBudget 0 70 overflowParts0 = overflowParts1 := by
    rw [enforceBudget_eq_some 0 70 overflowParts0 overflowParts1 h1,
        enforceBudget_eq_none 0 70 overflowParts1 h2]
  have hpc : prepareContext overflowConfig overflowDeps ("s".data) [] [] 0 =
      .ok { summary := (enforceBudget 0 70 overflowParts0).summary,
            memories := (enforceBudget 0 70 overflowParts0).memories,
            shortTerm := (enforceBudget 0 70 overflowParts0).turns,
            userMessage := (enforceBudget 0 70 overflowParts0).userMessage,
            promptBlock :=
              buildPromptBlock 0 (enforceBudget 0 70 overflowParts0) } := rfl
  rw [hpc, hEB]
  decide

/-- A memory item whose one-second TTL has expired by `now = 5000` ms. -/
def expiredItem : MemoryItem where
  id := 7
  sessionId := "s".data
  kind := .Fact
  content := "x".data
  metadata := { createdAt := 0, updatedAt := 0, salience := 50, tags := [],
                ttlSeconds := some 1, source := .User, retrievalCount := 0,
                lastRetrievedAt := none }
  contentHash := "h".data

/-- Oracles where every call succeeds except `delete_by_ids`, and the vector
query returns one TTL-expired item. -/
def deleteFailDeps : PrepareDeps where
  loadRecent := fun _ _ => .ok []
  query := fun _ _ _ _ => .ok [{ similarity := 1 / 2, item := expiredItem }]
  deleteByIds := fun _ => .error (.storage "disk".data)
  getSummary := fun _ => .ok none

/-- C2: counterexample. The TTL filter yields the non-empty expired set `[7]`,
`delete_by_ids` fails while every other store call succeeds, and
`prepare_context` propagates the failure instead of logging it: the call does
NOT return success. -/
theorem C2_delete_error_counterexample :
    deleteFailDeps.loadRecent ("s".data) 12 = .ok [] ∧
    deleteFailDeps.getSummary ("s".data) = .ok none ∧
    (applyTtl ((rankResults [{ similarity := 1 / 2, item := expiredItem }]
      defaultConfig.scoring 5000).map (·.item)) 5000).2 = [7] ∧
    deleteFailDeps.deleteByIds [7] = .error (.storage "disk".data) ∧
    prepareContext defaultConfig deleteFailDeps ("s".data) [] [] 5000 =
      .error (.storage "disk".data) := by
  exact ⟨rfl, rfl, by decide, rfl, by decide⟩

/-- C2 (amended): a failure of the cascaded TTL `delete_by_ids` call is
propagated: whenever the short-term load and the vector query succeed, the
expired set is non-empty, and `delete_by_ids` returns an error, that error is
the result of `prepare_context`. -/
theorem C2_delete_error_amended (config : MemoryConfig) (deps : PrepareDeps)
    (sessionId userMessage : Text) (recentTurns : List TranscriptEvent)
    (now : Timestamp) (shortTerm : List TranscriptEvent)
    (raw : List VectorSearchResult) (e : MemoryError)
    (h1 : (if recentTurns.isEmpty then
        deps.loadRecent sessionId (min (config.shortTerm.window * 2) usizeMax)
      else .ok recentTurns) = .ok shortTerm)
    (h2 : deps.query sessionId (buildQueryText userMessage shortTerm)
      config.retrieval.topK config.retrieval.minSimilarity = .ok raw)
    (h3 : ((applyTtl ((rankResults raw config.scoring now).map (·.item))
      now).2).isEmpty = false)
    (h4 : deps.deleteByIds
      ((applyTtl ((rankResults raw config.scoring now).map (·.item)) now).2) =
      .error e) :
    prepareContext config deps sessionId userMessage recentTurns now =
      .error e := by
  unfold prepareContext
  rw [h1]
  dsimp only
  rw [h2]
  dsimp only
  rw [if_pos h3, h4]

theorem C2_delete_error_amended_witness :
    prepareContext defaultConfig deleteFailDeps ("s".data) [] [] 5000 =
      .error (.storage "disk".data) :=
  C2_delete_error_amended defaultConfig deleteFailDeps ("s".data) [] [] 5000 []
    [{ similarity := 1 / 2, item := expiredItem }] (.storage "disk".data)
    rfl rfl (by decide) rfl

/-- The ordering the specification claims for ranked results: score
descending, ties by similarity descending, remaining ties by `updated_at`
descending. -/
def rankedLex (a b : RankedMemory) : Prop :=
  b.score < a.score ∨
    (a.score = b.score ∧
      (b.similarity < a.similarity ∨
        (a.similarity = b.similarity ∧
          b.item.metadata.updatedAt ≤ a.item.metadata.updatedAt)))

instance : DecidableRel rankedLex := fun a b => by
  unfold rankedLex
  infer_instance

/-- A memory item with the given salience and `updated_at`. -/
def plainItem (idv salience : Nat) (updatedAt : Timestamp) : MemoryItem where
  id := idv
  sessionId := "s".data
  kind := .Fact
  content := "x".data
  metadata := { createdAt := 0, updatedAt := updatedAt, salience := salience,
                tags := [], ttlSeconds := none, source := .User,
                retrievalCount := 0, lastRetrievedAt := none }
  contentHash := "h".data

/-- Scoring coefficients with no recency weight and full salience weight. -/
def c3Config : ScoringConfig where
  alphaRecency := 0
  betaSalience := 1
  recencyHalfLifeSeconds := 604800

/-- The scored form of the similarity-1/4, salience-100 result. -/
def c3RankedA : RankedMemory where
  score := 5 / 4
  similarity := 1 / 4
  recencyScore := 1
  salienceScore := 1
  item := plainItem 1 100 0

/-- The scored form of the similarity-3/4, salience-50 result. -/
def c3RankedB : RankedMemory where
  score := 5 / 4
  similarity := 3 / 4
  recencyScore := 1
  salienceScore := 1 / 2
  item := plainItem 2 50 0

lemma c3_score_eval :
    scoreResults
      [{ similarity := 1 / 4, item := plainItem 1 100 0 },
       { similarity := 3 / 4, item := plainItem 2 50 0 }] c3Config 0 =
      [c3RankedA, c3RankedB] := by
  unfold scoreResults
  simp only [List.map, numSeconds, plainItem, c3Config, c3RankedA, c3RankedB,
    RankedMemory.mk.injEq]
  norm_num

lemma c3_rank_eval :
    rankResults
      [{ similarity := 1 / 4, item := plainItem 1 100 0 },
       { similarity := 3 / 4, item := plainItem 2 50 0 }] c3Config 0 =
      [c3RankedA, c3RankedB] := by
  unfold rankResults
  rw [c3_score_eval]
  simp [List.insertionSort, List.orderedInsert, scoreGe, c3RankedA, c3RankedB]

/-- C3: counterexample. With `alpha_recency = 0`, `beta_salience = 1`, a
similarity-1/4 salience-100 result followed by a similarity-3/4 salience-50
result tie at score 5/4; the stable sort keeps the input order, so the
lower-similarity result stays first and the claimed similarity tie-break does
not hold. -/
theorem C3_ranking_counterexample :
    ¬ (∀ (raw : List VectorSearchResult) (config : ScoringConfig)
        (now : Timestamp),
        List.Pairwise rankedLex (rankResults raw config now)) := by
  intro hclaim
  have h := hclaim
    [{ similarity := 1 / 4, item := plainItem 1 100 0 },
     { similarity := 3 / 4, item := plainItem 2 50 0 }] c3Config 0
  rw [c3_rank_eval] at h
  have h2 := (List.pairwise_cons.mp h).1 c3RankedB (by simp)
  unfold rankedLex at h2
  simp only [c3RankedA, c3RankedB] at h2
  norm_num at h2

lemma filter_orderedInsert (q : ℚ) (x : RankedMemory) (l : List RankedMemory) :
    (List.orderedInsert scoreGe x l).filter (fun r => r.score == q) =
      if x.score == q then x :: l.filter (fun r => r.score == q)
      else l.filter (fun r => r.score == q) := by
  induction l with
  | nil =>
    by_cases hx : x.score == q
    · simp [List.orderedInsert, List.filter, hx]
    · simp [List.orderedInsert, List.filter, hx]
  | cons y ys ih =>
    rw [List.orderedInsert]
    by_cases hr : scoreGe x y
    · rw [if_pos hr, List.filter_cons]
    · rw [if_neg hr, List.filter_cons, ih]
      have hxy : x.score < y.score := not_le.mp hr
      by_cases hx : x.score = q
      · have hxb : (x.score == q) = true := by simpa using hx
        have hyq : y.score ≠ q := by rw [← hx]; exact (ne_of_gt hxy)
        have hyb : (y.score == q) = false := by simpa using hyq
        simp [List.filter_cons, hxb, hyb]
      · have hxb : (x.score == q) = false := by simpa using hx
        simp [List.filter_cons, hxb]

lemma filter_insertionSort (q : ℚ) (l : List RankedMemory) :
    (l.insertionSort scoreGe).filter (fun r => r.score == q) =
      l.filter (fun r => r.score == q) := by
  induction l with
  | nil => rfl
  | cons x xs ih =>
    rw [List.insertionSort, filter_orderedInsert, ih, List.filter_cons]

/-- C3 (amended): `rank_results` sorts only by the combined score, descending;
it is a stable sort of the scored results, so equal-score ties keep the raw
input order (no similarity or `updated_at` tie-break is applied). -/
theorem C3_ranking_amended (raw : List VectorSearchResult)
    (config : ScoringConfig) (now : Timestamp) :
    List.Sorted scoreGe (rankResults raw config now) ∧
      (rankResults raw config now).Perm (scoreResults raw config now) ∧
      ∀ q : ℚ, (rankResults raw config now).filter (fun r => r.score == q) =
        (scoreResults raw config now).filter (fun r => r.score == q) := by
  refine ⟨?_, ?_, ?_⟩
  · exact List.sorted_insertionSort scoreGe (scoreResults raw config now)
  · exact List.perm_insertionSort scoreGe (scoreResults raw config now)
  · intro q
    exact filter_insertionSort q (scoreResults raw config now)

/-- Duplicate-hash item seen first: salience 50, updated at 100. -/
def dupFirst : MemoryItem where
  id := 1
  sessionId := "s".data
  kind := .Fact
  content := "x".data
  metadata := { createdAt := 0, updatedAt := 100, salience := 50, tags := [],
                ttlSeconds := none, source := .User, retrievalCount := 0,
                lastRetrievedAt := none }
  contentHash := "h".data

/-- Duplicate-hash item seen second: salience 60, updated at 90 — the
lexicographic (salience, updated_at) maximum of the group. -/
def dupSecond : MemoryItem where
  id := 2
  sessionId := "s".data
  kind := .Fact
  content := "x".data
  metadata := { createdAt := 0, updatedAt := 90, salience := 60, tags := [],
                ttlSeconds := none, source := .User, retrievalCount := 0,
                lastRetrievedAt := none }
  contentHash := "h".data

/-- C6: the code's keep condition demands BOTH salience AND updated_at to be
at least the kept item's, so for the group {(salience 50, updated 100),
(salience 60, updated 90)} it keeps the salience-50 item — not the
lexicographic (salience, updated_at) maximum the specification (and the
function's own doc comment, "keeping the most salient item") describe. -/
theorem C6_merge_duplicates_bug :
    dupFirst.contentHash = dupSecond.contentHash ∧
    dupFirst.metadata.salience < dupSecond.metadata.salience ∧
    mergeDuplicates [dupFirst, dupSecond] = [dupFirst] := by
  refine ⟨rfl, by decide, by decide⟩

lemma mergeTags_mem (base extra : List Text) (t : Text) :
    t ∈ extra.foldl
        (fun acc tag => if acc.contains tag then acc else acc ++ [tag]) base ↔
      t ∈ base ∨ t ∈ extra := by
  induction extra generalizing base with
  | nil => simp
  | cons x xs ih =>
    simp only [List.foldl]
    by_cases hx : base.contains x
    · rw [if_pos hx]
      have hxb : x ∈ base := by simpa using hx
      rw [ih]
      constructor
      · rintro (h | h)
        · exact Or.inl h
        · exact Or.inr (List.mem_cons_of_mem _ h)
      · rintro (h | h)
        · exact Or.inl h
        · rcases List.mem_cons.mp h with h | h
          · exact Or.inl (h ▸ hxb)
          · exact Or.inr h
    · rw [if_neg hx]
      rw [ih]
      simp only [List.mem_append, List.mem_cons, List.mem_singleton]
      tauto

lemma mergeTags_append (base extra : List Text) :
    ∃ u, extra.foldl
        (fun acc tag => if acc.contains tag then acc else acc ++ [tag]) base =
      base ++ u := by
  induction extra generalizing base with
  | nil => exact ⟨[], by simp⟩
  | cons x xs ih =>
    simp only [List.foldl]
    by_cases hx : base.contains x
    · rw [if_pos hx]
      exact ih base
    · rw [if_neg hx]
      obtain ⟨u, hu⟩ := ih (base ++ [x])
      refine ⟨x :: u, ?_⟩
      rw [hu, List.append_assoc]
      rfl

/-- C7: the semantic-dedup merge keeps the existing id, takes the maxima of
salience and `updated_at`, the existing `created_at`, the tag union in
insertion order, the new source, the minimum TTL when both are set (else
whichever exists), the saturating sum of retrieval counts, the maximum
`last_retrieved_at`; content and kind follow the existing kind's merge hint
(Replace takes the new, Append keeps the existing, Accumulate keeps the
longer content), and the hash is the fingerprint of the normalized merged
content. -/
theorem C7_semantic_merge (existing new : MemoryItem) :
    (mergeMemories existing new).id = existing.id ∧
    (mergeMemories existing new).metadata.salience =
      max existing.metadata.salience new.metadata.salience ∧
    (mergeMemories existing new).metadata.updatedAt =
      max existing.metadata.updatedAt new.metadata.updatedAt ∧
    (mergeMemories existing new).metadata.createdAt =
      existing.metadata.createdAt ∧
    (∀ t, t ∈ (mergeMemories existing new).metadata.tags ↔
      t ∈ existing.metadata.tags ∨ t ∈ new.metadata.tags) ∧
    (∃ u, (mergeMemories existing new).metadata.tags =
      existing.metadata.tags ++ u) ∧
    (mergeMemories existing new).metadata.source = new.metadata.source ∧
    (mergeMemories existing new).metadata.ttlSeconds =
      (match existing.metadata.ttlSeconds, new.metadata.ttlSeconds with
       | some a, some b => some (min a b)
       | some a, none => some a
       | none, some b => some b
       | none, none => none) ∧
    (mergeMemories existing new).metadata.retrievalCount =
      min (existing.metadata.retrievalCount + new.metadata.retrievalCount)
        u32Max ∧
    (mergeMemories existing new).metadata.lastRetrievedAt =
      (match existing.metadata.lastRetrievedAt, new.metadata.lastRetrievedAt with
       | some a, some b => some (max a b)
       | some a, none => some a
       | none, some b => some b
       | none, none => none) ∧
    (mergeMemories existing new).content =
      (match existing.kind.mergeHint with
       | .Replace => new.content
       | .Append => existing.content
       | .Accumulate =>
         if byteLen existing.content < byteLen new.content then new.content
         else existing.content) ∧
    (mergeMemories existing new).kind =
      (match existing.kind.mergeHint with
       | .Replace => new.kind
       | .Append => existing.kind
       | .Accumulate =>
         if byteLen existing.content < byteLen new.content then new.kind
         else existing.kind) ∧
    (mergeMemories existing new).contentHash =
      computeHash (normalizeText (mergeMemories existing new).content) := by
  unfold mergeMemories mergeMetadata
  cases hhint : existing.kind.mergeHint <;>
    refine ⟨rfl, rfl, rfl, rfl,
      fun t => mergeTags_mem existing.metadata.tags new.metadata.tags t,
      mergeTags_append existing.metadata.tags new.metadata.tags,
      rfl, rfl, rfl, rfl, ?_, ?_, ?_⟩ <;>
    simp only [hashContent] <;> first
      | rfl
      | (split <;> rfl)

lemma upsertCalls_subset (embed : Text → Except MemoryError Nat)
    (upsert : MemoryItem → Nat → Except MemoryError Unit) :
    ∀ (l : List MemoryItem) (item : MemoryItem),
      item ∈ upsertCalls embed upsert l → item ∈ l := by
  intro l
  induction l with
  | nil => intro item h; simp [upsertCalls] at h
  | cons x xs ih =>
    intro item h
    rw [upsertCalls] at h
    cases hemb : embed x.content with
    | error e => rw [hemb] at h; simp at h
    | ok emb =>
      rw [hemb] at h
      dsimp only at h
      rcases List.mem_cons.mp h with h | h
      · exact h ▸ List.mem_cons_self x xs
      · cases hup : upsert x emb with
        | error e => rw [hup] at h; simp at h
        | ok u =>
          rw [hup] at h
          exact List.mem_cons_of_mem x (ih item h)

lemma filterNewItems_mem (config : MemoryConfig)
    (existsHash : Text → Text → Except MemoryError Bool) (sessionId : Text) :
    ∀ (items : List MemoryItem) (cache : DedupeCache)
      (fresh : List MemoryItem) (cache' : DedupeCache),
      filterNewItems config existsHash sessionId items cache =
        .ok (fresh, cache') →
      ∀ item ∈ fresh,
        item.validateOk config.prompt.maxMemoryChars = true ∧
        existsHash sessionId item.contentHash = .ok false := by
  intro items
  induction items with
  | nil =>
    intro cache fresh cache' h item hmem
    rw [filterNewItems] at h
    obtain ⟨h1, h2⟩ := Prod.mk.injEq .. ▸ Except.ok.inj h
    rw [← h1] at hmem
    simp at hmem
  | cons it rest ih =>
    intro cache fresh cache' h item hmem
    rw [filterNewItems] at h
    dsimp only at h
    by_cases hval :
        (applyTtlDefault config it).validateOk config.prompt.maxMemoryChars = false
    · rw [if_pos hval] at h
      exact ih cache fresh cache' h item hmem
    · rw [if_neg hval] at h
      by_cases hseen :
          (cache.get (mkDedupeKey sessionId
            (applyTtlDefault config it).contentHash)).1 = true
      · rw [if_pos hseen] at h
        exact ih _ fresh cache' h item hmem
      · rw [if_neg hseen] at h
        cases hex : existsHash sessionId (applyTtlDefault config it).contentHash with
        | error e => rw [hex] at h; exact Except.noConfusion h
        | ok stored =>
          rw [hex] at h
          cases stored with
          | true => exact ih _ fresh cache' h item hmem
          | false =>
            cases hrec : filterNewItems config existsHash sessionId rest
                (cache.get (mkDedupeKey sessionId
                  (applyTtlDefault config it).contentHash)).2 with
            | error e => rw [hrec] at h; exact Except.noConfusion h
            | ok out =>
              rw [hrec] at h
              obtain ⟨h1, h2⟩ := Prod.mk.injEq .. ▸ Except.ok.inj h
              rw [← h1] at hmem
              rcases List.mem_cons.mp hmem with hitem | hitem
              · subst hitem
                exact ⟨by simpa using hval, hex⟩
              · exact ih _ out.1 out.2 (by rw [hrec]) item hitem

/-- C4: once the vector store holds content hash `h` for the session
(`exists_hash` answers true), a later `record_turn` whose extractor produces a
candidate with hash `h` issues no upsert for it: no item with that hash
survives `filter_new_items`, hence none reaches the `vector.upsert` calls of
`persist_fresh_items`. -/
theorem C4_dedupe_shortcut (config : MemoryConfig)
    (existsHash : Text → Text → Except MemoryError Bool) (sessionId hsh : Text)
    (items : List MemoryItem) (cache : DedupeCache) (fresh : List MemoryItem)
    (cache' : DedupeCache) (embed : Text → Except MemoryError Nat)
    (upsert : MemoryItem → Nat → Except MemoryError Unit)
    (hstored : existsHash sessionId hsh = .ok true)
    (hfilter : filterNewItems config existsHash sessionId items cache =
      .ok (fresh, cache'))
    (item : MemoryItem) (hmem : item ∈ upsertCalls embed upsert fresh) :
    item.contentHash ≠ hsh := by
  have hin := upsertCalls_subset embed upsert fresh item hmem
  obtain ⟨hval, hex⟩ :=
    filterNewItems_mem config existsHash sessionId items cache fresh cache'
      hfilter item hin
  intro hcontra
  rw [hcontra, hstored] at hex
  exact Bool.noConfusion (Except.ok.inj hex)

/-- C5: every item `record_turn` hands to the vector-store upsert passed
`MemoryItem::validate`: its content is non-empty after trimming, its
character count is within `prompt.max_memory_chars`, its salience is at most
100, and it does not match the sensitive-token pattern. -/
theorem C5_validation_invariants (config : MemoryConfig)
    (existsHash : Text → Text → Except MemoryError Bool) (sessionId : Text)
    (items : List MemoryItem) (cache : DedupeCache) (fresh : List MemoryItem)
    (cache' : DedupeCache) (embed : Text → Except MemoryError Nat)
    (upsert : MemoryItem → Nat → Except MemoryError Unit)
    (hfilter : filterNewItems config existsHash sessionId items cache =
      .ok (fresh, cache'))
    (item : MemoryItem) (hmem : item ∈ upsertCalls embed upsert fresh) :
    (trimText item.content).isEmpty = false ∧
      item.content.length ≤ config.prompt.maxMemoryChars ∧
      item.metadata.salience ≤ 100 ∧
      containsSensitive item.content = false := by
  have hin := upsertCalls_subset embed upsert fresh item hmem
  obtain ⟨hval, _⟩ :=
    filterNewItems_mem config existsHash sessionId items cache fresh cache'
      hfilter item hin
  unfold MemoryItem.validateOk at hval
  simp only [Bool.and_eq_true, Bool.not_eq_true', decide_eq_true_eq] at hval
  exact ⟨hval.1.1.1, hval.1.1.2, hval.1.2, hval.2⟩

/-- Store oracle that holds exactly the content hash `h`. -/
def storedHashOracle : Text → Text → Except MemoryError Bool :=
  fun _ contentHash => .ok (contentHash == "h".data)

/-- A valid candidate whose content hash `g` is not yet stored. -/
def freshCandidate : MemoryItem where
  id := 3
  sessionId := "s".data
  kind := .Preference
  content := "i like coffee".data
  metadata := { createdAt := 0, updatedAt := 0, salience := 70, tags := [],
                ttlSeconds := none, source := .User, retrievalCount := 0,
                lastRetrievedAt := none }
  contentHash := "g".data

/-- An empty dedup LRU with the default capacity. -/
def freshCache : DedupeCache where
  capacity := 256
  entries := []

/-- Embedding oracle that always succeeds. -/
def okEmbed : Text → Except MemoryError Nat := fun _ => .ok 0

/-- Upsert oracle that always succeeds. -/
def okUpsert : MemoryItem → Nat → Except MemoryError Unit := fun _ _ => .ok ()

theorem C4_dedupe_shortcut_witness : freshCandidate.contentHash ≠ "h".data :=
  C4_dedupe_shortcut defaultConfig storedHashOracle ("s".data) ("h".data)
    [freshCandidate] freshCache [freshCandidate] freshCache okEmbed okUpsert
    (by decide) (by decide) freshCandidate (by decide)

theorem C5_validation_invariants_witness :
    (trimText freshCandidate.content).isEmpty = false ∧
      freshCandidate.content.length ≤ defaultConfig.prompt.maxMemoryChars ∧
      freshCandidate.metadata.salience ≤ 100 ∧
      containsSensitive freshCandidate.content = false :=
  C5_validation_invariants defaultConfig storedHashOracle ("s".data)
    [freshCandidate] freshCache [freshCandidate] freshCache okEmbed okUpsert
    (by decide) freshCandidate (by decide)

lemma mkDedupeKey_inj (s1 s2 h1 h2 : Text) (hs1 : ':' ∉ s1) (hs2 : ':' ∉ s2)
    (h : mkDedupeKey s1 h1 = mkDedupeKey s2 h2) : s1 = s2 ∧ h1 = h2 := by
  induction s1 generalizing s2 with
  | nil =>
    cases s2 with
    | nil =>
      refine ⟨rfl, ?_⟩
      simpa [mkDedupeKey] using h
    | cons c t =>
      simp only [mkDedupeKey, List.nil_append, List.cons_append,
        List.cons.injEq] at h
      exact absurd (h.1 ▸ List.mem_cons_self c t) hs2
  | cons c t ih =>
    cases s2 with
    | nil =>
      simp only [mkDedupeKey, List.nil_append, List.cons_append,
        List.cons.injEq] at h
      exact absurd (h.1.symm ▸ List.mem_cons_self c t) hs1
    | cons d u =>
      simp only [mkDedupeKey, List.cons_append, List.cons.injEq] at h
      have hs1' : ':' ∉ t := fun hc => hs1 (List.mem_cons_of_mem c hc)
      have hs2' : ':' ∉ u := fun hc => hs2 (List.mem_cons_of_mem d hc)
      obtain ⟨hsu, hh⟩ := ih u hs1' hs2' h.2
      exact ⟨by rw [h.1, hsu], hh⟩

/-- C10: the per-candidate dedup decision is session-isolated. For a
candidate of session `B`, adding LRU entries that all belong to a different
session `A` (keys `A:hash`) and changing the stored hashes of `A` only
(`existsHash` agreeing on `B`) leaves the list of kept items unchanged:
LRU keys are `session:content_hash` and `exists_hash` is queried with the
candidate's own session. Session ids render as UUIDs, so they contain no
colon and keys of different sessions cannot collide. -/
theorem C10_session_isolation (config : MemoryConfig)
    (e1 e2 : Text → Text → Except MemoryError Bool) (A B : Text) (hAB : A ≠ B)
    (hA : ':' ∉ A) (hB : ':' ∉ B) (item : MemoryItem) (cache1 : DedupeCache)
    (extras : List Text) (hextras : ∀ k ∈ extras, ∃ hsh, k = mkDedupeKey A hsh)
    (cache2 : DedupeCache) (hc2 : cache2.entries = cache1.entries ++ extras)
    (heq : e1 B = e2 B) :
    (filterNewItems config e1 B [item] cache1).map (·.1) =
      (filterNewItems config e2 B [item] cache2).map (·.1) := by
  simp only [filterNewItems]
  by_cases hval :
      (applyTtlDefault config item).validateOk config.prompt.maxMemoryChars = false
  · rw [if_pos hval]
    rw [if_pos hval]
    rfl
  · rw [if_neg hval]
    rw [if_neg hval]
    have hnot : mkDedupeKey B (applyTtlDefault config item).contentHash ∉ extras := by
      intro hk
      obtain ⟨hsh, hkk⟩ := hextras _ hk
      obtain ⟨hBA, _⟩ := mkDedupeKey_inj B A _ hsh hB hA hkk
      exact hAB hBA.symm
    have hca : (cache1.entries ++ extras).contains
          (mkDedupeKey B (applyTtlDefault config item).contentHash) =
        cache1.entries.contains
          (mkDedupeKey B (applyTtlDefault config item).contentHash) := by
      by_cases hin :
          mkDedupeKey B (applyTtlDefault config item).contentHash ∈ cache1.entries
      · simp [List.contains, hin]
      · have h2 : mkDedupeKey B (applyTtlDefault config item).contentHash ∉
            cache1.entries ++ extras := by
          simp only [List.mem_append]
          rintro (hc | hc)
          exacts [hin hc, hnot hc]
        simp [List.contains, hin, h2]
    have hkey :
        (cache2.get (mkDedupeKey B (applyTtlDefault config item).contentHash)).1 =
          (cache1.get (mkDedupeKey B (applyTtlDefault config item).contentHash)).1 := by
      unfold DedupeCache.get
      rw [hc2, hca]
      by_cases hc : cache1.entries.contains
          (mkDedupeKey B (applyTtlDefault config item).contentHash) = true
      · rw [if_pos hc]
        rw [if_pos hc]
      · rw [if_neg hc]
        rw [if_neg hc]
    by_cases hseen :
        (cache1.get (mkDedupeKey B (applyTtlDefault config item).contentHash)).1 = true
    · rw [if_pos hseen]
      rw [if_pos (hkey.trans hseen)]
      rfl
    · rw [if_neg hseen]
      rw [if_neg (fun hcon => hseen ((hkey.symm.trans hcon)))]
      rw [show e1 B (applyTtlDefault config item).contentHash =
          e2 B (applyTtlDefault config item).contentHash from congrFun heq _]
      cases hx : e2 B (applyTtlDefault config item).contentHash with
      | error e => rfl
      | ok stored => cases stored <;> rfl

/-- A dedup key of session `a`, foreign to session `b`. -/
def otherSessionKey : Text := mkDedupeKey ("a".data) ("g".data)

/-- The empty LRU padded with one session-`a` entry. -/
def paddedCache : DedupeCache where
  capacity := 256
  entries := [otherSessionKey]

/-- Store oracle that holds nothing. -/
def noneStored : Text → Text → Except MemoryError Bool := fun _ _ => .ok false

theorem C10_session_isolation_witness :
    (filterNewItems defaultConfig noneStored ("b".data) [freshCandidate]
      freshCache).map (·.1) =
    (filterNewItems defaultConfig noneStored ("b".data) [freshCandidate]
      paddedCache).map (·.1) :=
  C10_session_isolation defaultConfig noneStored noneStored ("a".data)
    ("b".data) (by decide) (by decide) (by decide) freshCandidate freshCache
    [otherSessionKey] (fun k hk => ⟨"g".data, by simpa [otherSessionKey] using hk⟩)
    paddedCache rfl rfl

lemma normalize_replicate_a (n : Nat) :
    normalizeText (List.replicate n 'a') = List.replicate n 'a' := by
  have hwa : isRustWhitespace 'a' = false := by decide
  have hdw : ∀ m, List.dropWhile isRustWhitespace (List.replicate m 'a') =
      List.replicate m 'a' := by
    intro m
    cases m with
    | zero => rfl
    | succ k => rw [List.replicate_succ, List.dropWhile_cons, hwa]; simp
  have htrim : trimText (List.replicate n 'a') = List.replicate n 'a' := by
    unfold trimText trimEnd
    rw [hdw, List.reverse_replicate, hdw, List.reverse_replicate]
  have hcore : ∀ m, normCore (List.replicate m 'a') false =
      List.replicate m 'a' := by
    intro m
    induction m with
    | zero => rfl
    | succ k ih =>
      rw [List.replicate_succ, normCore, hwa]
      simp only [Bool.false_eq_true, if_false, ih]
      rfl
  unfold normalizeText
  rw [htrim, hcore]

lemma strHashValue_lt (t : Text) : strHashValue t < u64Mod := by
  unfold strHashValue sipHash13 wrap64
  exact Nat.mod_lt _ (by decide)

/-- C8: counterexample. Fingerprints are 64-bit values, so the map from
normalized contents to fingerprints cannot be injective: the family
`"a"`, `"aa"`, `"aaa"`, … is infinite and fixed by normalization, while the
fingerprints range over the finitely many 16-hex-digit strings. Hence equal
fingerprints do NOT imply that the inputs differ only in whitespace and case,
and the claimed equivalence is false. -/
theorem C8_fingerprint_counterexample :
    ¬ (∀ x y : Text,
        hashContent x = hashContent y ↔ normalizeText x = normalizeText y) := by
  intro hclaim
  have hinj : Function.Injective
      fun n : Nat => hashContent (List.replicate (n + 1) 'a') := by
    intro m k hmk
    have h := (hclaim _ _).mp hmk
    rw [normalize_replicate_a, normalize_replicate_a] at h
    have hlen := congrArg List.length h
    simpa using hlen
  have hfin : (Set.range fun v : Fin u64Mod => toHex16 v.1).Finite :=
    Set.finite_range _
  have hsub : (Set.range fun n : Nat => hashContent (List.replicate (n + 1) 'a'))
      ⊆ Set.range fun v : Fin u64Mod => toHex16 v.1 := by
    rintro t ⟨n, rfl⟩
    exact ⟨⟨strHashValue (normalizeText (List.replicate (n + 1) 'a')),
      strHashValue_lt _⟩, rfl⟩
  have hinf : (Set.range fun n : Nat =>
      hashContent (List.replicate (n + 1) 'a')).Infinite :=
    Set.infinite_range_of_injective hinj
  exact hinf (hfin.subset hsub)

/-- C8 (amended): the fingerprint is a function of the normalization: inputs
differing only in whitespace and letter case (equal normalizations) always
receive equal fingerprints. The converse direction fails (64-bit fingerprints
collide across distinct normalized contents). -/
theorem C8_fingerprint_amended (x y : Text)
    (h : normalizeText x = normalizeText y) : hashContent x = hashContent y := by
  unfold hashContent
  rw [h]

theorem C8_fingerprint_amended_witness :
    hashContent ("Hello  World".data) = hashContent ("hello world".data) :=
  C8_fingerprint_amended ("Hello  World".data) ("hello world".data) (by decide)

end Halldyll
